import Mathlib

/-!
Verification of the delivery-quoting and store-availability engine of the
site1-backend repository.

The embedding works over shallow translations of the JavaScript source:
  * `normalizeUkPostcode`, `isValidUkPostcodeFormat`, `quoteByPostcode`
    (source name `quoteByPostcodePrefix`), `quoteByDistance` (source name
    `quoteByDistanceBands`) and `quoteDelivery` from
    `src/services/delivery.js` (the DB-backed variant);
  * the `GET /api/store/is-open` and `GET /api/store/collection-times`
    handlers from `src/index.js`.

Modelling conventions:
  * JS strings holding postcodes/patterns are `List Char`; reason strings
    are Lean `String` literals.
  * `HH:MM` wall-clock strings are minutes after midnight (`Nat`).
    Lexicographic comparison of well-formed zero-padded `HH:MM` strings
    agrees with numeric comparison of the encoded minutes, so the
    string comparisons of the source become `≤` on `Nat`.
  * JS numbers (fees, thresholds, distances) are `ℚ`; `Math.round` is
    `jsRound`, i.e. `⌊x + 1/2⌋` (JS rounds half toward +∞).
  * External capabilities (the Supabase lookup, `geocodeToCoord`,
    `drivingDistanceMiles`) are oracle inputs; `Except.error` encodes a
    thrown/rejected promise and `Except.ok none` a `null`/missing result.
-/

namespace Site1

/-! ## Characters and the postcode normalizer (`src/services/delivery.js`) -/

/-- ASCII uppercasing, as JS `toUpperCase` acts on the ASCII letters
`a`–`z` (codes 97–122). -/
def jsToUpper (c : Char) : Char :=
  if 97 ≤ c.toNat ∧ c.toNat ≤ 122 then Char.ofNat (c.toNat - 32) else c

/-- Uppercase letters `A`–`Z` (codes 65–90). -/
def isUpperAlpha (c : Char) : Bool :=
  decide (65 ≤ c.toNat) && decide (c.toNat ≤ 90)

/-- Digits `0`–`9` (codes 48–57). -/
def isDigitCh (c : Char) : Bool :=
  decide (48 ≤ c.toNat) && decide (c.toNat ≤ 57)

/-- The character class `[A-Z0-9]` of the JS replace-regexp. -/
def isAlnumCh (c : Char) : Bool := isUpperAlpha c || isDigitCh c

/-- The stripping step `raw.toUpperCase().replace(/[^A-Z0-9]/g, '')`. -/
def sanitize (l : List Char) : List Char :=
  (l.map jsToUpper).filter isAlnumCh

/-- Function `normalizeUkPostcode` from `src/services/delivery.js`: uppercase, strip
non-alphanumerics; if fewer than 5 chars remain return them unchanged, else
insert a space before the final 3 characters. -/
def normalizeUkPostcode (raw : List Char) : List Char :=
  let s := sanitize raw
  if s.length < 5 then s
  else s.take (s.length - 3) ++ ' ' :: s.drop (s.length - 3)

/-- The `\s` class of the JS regexp, restricted to the whitespace
code points that can actually occur here (ASCII whitespace and NBSP;
strings reaching this test in the quote path are normalized postcodes,
which contain only `A`–`Z`, `0`–`9` and the space inserted by
`normalizeUkPostcode`). -/
def isSpaceCh (c : Char) : Bool :=
  decide (c.toNat = 32) || decide (c.toNat = 9) || decide (c.toNat = 10) ||
  decide (c.toNat = 11) || decide (c.toNat = 12) || decide (c.toNat = 13) ||
  decide (c.toNat = 160)

/-- The inward part `[0-9][A-Z]{2}$` of the UK grammar. -/
def matchInward (l : List Char) : Bool :=
  match l with
  | [d, a, b] => isDigitCh d && isUpperAlpha a && isUpperAlpha b
  | _ => false

/-- The tail `[0-9A-Z]?\s?[0-9][A-Z]{2}$` with full regexp backtracking: the two
optional atoms may each be taken or skipped. -/
def matchAfterDigit (l : List Char) : Bool :=
  matchInward l ||
  (match l with
   | c :: rest =>
       (isAlnumCh c &&
         (matchInward rest ||
          (match rest with
           | s :: r2 => isSpaceCh s && matchInward r2
           | [] => false))) ||
       (isSpaceCh c && matchInward rest)
   | [] => false)

/-- The tail `[0-9][0-9A-Z]?\s?[0-9][A-Z]{2}$` starting at the first digit. -/
def matchFromDigit (l : List Char) : Bool :=
  match l with
  | d :: rest => isDigitCh d && matchAfterDigit rest
  | [] => false

/-- Function `isValidUkPostcodeFormat` from `src/services/delivery.js`:
`/^[A-Z]{1,2}[0-9][0-9A-Z]?\s?[0-9][A-Z]{2}$/.test(pc.toUpperCase())`.
The leading `[A-Z]{1,2}` may consume one or two letters. -/
def isValidUkPostcodeFormat (pc : List Char) : Bool :=
  match pc.map jsToUpper with
  | a :: rest =>
      isUpperAlpha a &&
        (matchFromDigit rest ||
         (match rest with
          | b :: r2 => isUpperAlpha b && matchFromDigit r2
          | [] => false))
  | [] => false

/-! ## Delivery decisions and the postcode-zone provider -/

/-- JS `Math.round`: round half toward positive infinity, `⌊q + 1/2⌋`. -/
def jsRound (q : ℚ) : ℤ := ⌊q + 1 / 2⌋

/-- The `zone` field of a decision.  The postcode engine stores the matched
area pattern; the distance engine builds the display string
`` `<= ${band.max_distance}mi` `` from the band bound, of which we keep the
numeric datum. -/
inductive ZoneTag where
  | area (pattern : List Char)
  | band (maxDistance : ℚ)
deriving DecidableEq

/-- A `DeliveryDecision` as returned by every provider (the diagnostic
`debug` payload is omitted: it is declared not part of the contract). -/
structure Quote where
  isDeliverable : Bool
  feePence : ℤ
  minOrderPence : ℚ
  zone : Option ZoneTag
  reason : Option String
deriving DecidableEq

/-- One element of `postcodeRules.areas`. -/
structure Area where
  pattern : List Char
  fee : ℚ
deriving DecidableEq

/-- The `delivery_postcode_rules` configuration object. -/
structure PostcodeRules where
  areas : List Area
  default_min_order_threshold : ℚ
  default_extra_fee_if_below_threshold : ℚ
deriving DecidableEq

/-- Stable insertion of an area into a list ordered by descending pattern
length: the inserted element goes before the first strictly-shorter entry
and, among equal lengths, before those inserted earlier from further right
in the input, preserving input order of equal-length patterns. -/
def insertByLen (x : Area) : List Area → List Area
  | [] => [x]
  | y :: ys =>
      if y.pattern.length ≤ x.pattern.length then x :: y :: ys
      else y :: insertByLen x ys

/-- The sort `areas.slice().sort((a, b) => b.pattern.length - a.pattern.length)`:
a stable sort by descending pattern length (ECMAScript `sort` is stable). -/
def sortByLenDesc : List Area → List Area
  | [] => []
  | x :: xs => insertByLen x (sortByLenDesc xs)

/-- Function `quoteByPostcodePrefix` from `src/services/delivery.js`. -/
def quoteByPostcode (postcodeRules : PostcodeRules) (postcode : List Char)
    (subtotalPence : ℚ) : Quote :=
  let normalized := normalizeUkPostcode postcode
  if ¬ isValidUkPostcodeFormat normalized then
    ⟨false, 0, 0, none, some "Invalid postcode"⟩
  else
    let zones := sortByLenDesc postcodeRules.areas
    match zones.find? (fun z => (z.pattern.map jsToUpper).isPrefixOf normalized) with
    | none =>
        ⟨false, 0, postcodeRules.default_min_order_threshold * 100, none,
          some "Out of delivery area"⟩
    | some m =>
        let minOrderPence := postcodeRules.default_min_order_threshold * 100
        let subtotalGbp := subtotalPence / 100
        let base := jsRound (m.fee * 100)
        let feePence :=
          if subtotalGbp < postcodeRules.default_min_order_threshold then
            base + jsRound (postcodeRules.default_extra_fee_if_below_threshold * 100)
          else base
        ⟨true, feePence, minOrderPence, some (.area m.pattern), none⟩

/-! ## The distance-band provider -/

/-- One element of `distanceRules.bands`. -/
structure Band where
  max_distance : ℚ
  fee_if_subtotal_gte : ℚ
  fee_if_subtotal_lt : ℚ
deriving DecidableEq

/-- The `delivery_distance_rules` configuration object. -/
structure DistanceRules where
  bands : List Band
  no_service_beyond : ℚ
deriving DecidableEq

/-- A latitude/longitude pair as produced by `geocodeToCoord`. -/
structure Coord where
  lat : ℚ
  lng : ℚ
deriving DecidableEq

/-- Function `quoteByDistanceBands` from `src/services/delivery.js`.  The two
external capabilities are oracle inputs: `geocodeResult` is the outcome of
`await geocodeToCoord(address || postcode)` and `distanceResult` the
outcome of `await drivingDistanceMiles(storeLocation, customerCoord)`;
`Except.error` is a thrown exception (absorbed by the provider's own
`try`/`catch`), `Except.ok none` a `null` return. -/
def quoteByDistance (distanceRules : DistanceRules)
    (geocodeResult : Except String (Option Coord))
    (distanceResult : Except String (Option ℚ))
    (subtotalPence : ℚ) : Quote :=
  match geocodeResult with
  | .error _ => ⟨false, 0, 0, none, some "Error calculating delivery fee"⟩
  | .ok none => ⟨false, 0, 0, none, some "Unable to geocode address"⟩
  | .ok (some _) =>
    match distanceResult with
    | .error _ => ⟨false, 0, 0, none, some "Error calculating delivery fee"⟩
    | .ok none => ⟨false, 0, 0, none, some "Unable to calculate route"⟩
    | .ok (some distanceMiles) =>
      if distanceRules.no_service_beyond < distanceMiles then
        ⟨false, 0, 0, none, some "Out of delivery range"⟩
      else
        match distanceRules.bands.find?
            (fun b => decide (distanceMiles ≤ b.max_distance)) with
        | none => ⟨false, 0, 0, none, some "Out of delivery range"⟩
        | some band =>
          let subtotalGbp := subtotalPence / 100
          let feeGbp :=
            if 0 ≤ subtotalGbp then band.fee_if_subtotal_gte
            else band.fee_if_subtotal_lt
          ⟨true, jsRound (feeGbp * 100), 0, some (.band band.max_distance), none⟩

/-! ## The quote orchestrator -/

/-- The columns of the `store_config` row consulted by `quoteDelivery`. -/
structure StoreConfig where
  delivery_active_rule_type : String
  delivery_postcode_rules : PostcodeRules
  delivery_distance_rules : DistanceRules
  location_lat : ℚ
  location_lng : ℚ

/-- Function `quoteDelivery` from `src/services/delivery.js`.  `configLookup` is the
oracle outcome of the Supabase `store_config` lookup: `Except.error`
encodes a rejected promise (absorbed by the orchestrator's `try`/`catch`
into the generic failure decision) while `Except.ok none` encodes the
`error || !storeConfig` result of a completed query.  The geo oracles are
threaded to the distance provider, which is the only consumer. -/
def quoteDelivery (mode : String) (postcode : List Char) (subtotalPence : ℚ)
    (configLookup : Except String (Option StoreConfig))
    (geocodeResult : Except String (Option Coord))
    (distanceResult : Except String (Option ℚ)) : Quote :=
  if mode = "collection" then ⟨true, 0, 0, none, none⟩
  else
    match configLookup with
    | .error _ => ⟨false, 0, 0, none, some "Error calculating delivery fee"⟩
    | .ok none => ⟨false, 0, 0, none, some "Store configuration not found"⟩
    | .ok (some storeConfig) =>
      if storeConfig.delivery_active_rule_type = "postcode" then
        quoteByPostcode storeConfig.delivery_postcode_rules postcode subtotalPence
      else if storeConfig.delivery_active_rule_type = "distance" then
        quoteByDistance storeConfig.delivery_distance_rules geocodeResult
          distanceResult subtotalPence
      else ⟨false, 0, 0, none, some "Invalid delivery rule type"⟩

/-! ## Availability: is-open and collection-time handlers (`src/index.js`)

Wall-clock times are minutes after midnight; the handlers' `HH:MM` string
comparisons agree with `≤`/`<` on this encoding.  Dates are opaque `Nat`
codes — the handlers only ever compare them for equality.  The Supabase
queries `eq('holiday_date', d)` / `eq('day_of_week', w)` become list
filters over the full tables. -/

/-- A row of `store_holidays`. -/
structure Holiday where
  holiday_date : Nat
  start_time : Nat
  end_time : Nat
deriving DecidableEq

/-- A row of `store_opening_hours`. -/
structure HourSlot where
  day_of_week : Nat
  open_time : Nat
  close_time : Nat
  is_closed : Bool
deriving DecidableEq

/-- The response of `GET /api/store/is-open`. -/
structure OpenStatus where
  isOpen : Bool
  reason : String
deriving DecidableEq

/-- The test `currentTime >= holiday.start_time && currentTime <= holiday.end_time`. -/
def inHolidayWindow (t : Nat) (h : Holiday) : Bool :=
  decide (h.start_time ≤ t) && decide (t ≤ h.end_time)

/-- The `GET /api/store/is-open` handler from `src/index.js`.  The handler
queries holidays for the current date (if any row exists it consults
`holidays[0]` only) and otherwise tests the opening-hours rows of the
current weekday, with the overnight special case for `closeTime <
openTime`.  The DB's `order('open_time')` is immaterial to the `some`
below, so the rows are taken in table order. -/
def isOpenNow (holidays : List Holiday) (hours : List HourSlot)
    (currentDate dayOfWeek currentTime : Nat) : OpenStatus :=
  match holidays.filter (fun h => h.holiday_date == currentDate) with
  | holiday :: _ =>
    let isInHolidayTime := inHolidayWindow currentTime holiday
    ⟨!isInHolidayTime,
      if isInHolidayTime then "Holiday" else "Open during holiday period"⟩
  | [] =>
    match hours.filter (fun s => s.day_of_week == dayOfWeek) with
    | [] => ⟨false, "No opening hours set"⟩
    | todayHours =>
      let isCurrentlyOpen := todayHours.any (fun slot =>
        if slot.is_closed then false
        else if slot.close_time < slot.open_time then
          decide (slot.open_time ≤ currentTime) ||
            decide (currentTime ≤ slot.close_time)
        else
          decide (slot.open_time ≤ currentTime) &&
            decide (currentTime ≤ slot.close_time))
      ⟨isCurrentlyOpen,
        if isCurrentlyOpen then "Open" else "Outside opening hours"⟩

/-- The response of `GET /api/store/collection-times`. -/
structure TimesResult where
  availableTimes : List Nat
  reason : Option String
deriving DecidableEq

/-- The adjusted slot start: `startTime = slot.open_time`, bumped to
`now + leadTimeMinutes` (wrapped by `toTimeString` at midnight) when the
target date is today and the bumped value is later. -/
def bumpStart (openT : Nat) (isToday : Bool) (nowTime leadTimeMinutes : Nat) : Nat :=
  if isToday then
    let leadStr := (nowTime + leadTimeMinutes) % 1440
    if openT < leadStr then leadStr else openT
  else openT

/-- The adjusted slot end: `close_time` minus the buffer, as computed by
JS `Date` arithmetic on day `2000-01-01` followed by `toTimeString` — i.e.
subtraction modulo 1440 rolling backwards past midnight. -/
def adjClose (closeT bufferMinutes : Nat) : Nat :=
  (((closeT : ℤ) - (bufferMinutes : ℤ)) % 1440).toNat

/-- The `while (currentSlot < endSlot)` loop of the collection-times
handler: emit `cur` unless it falls in some holiday window for the date,
then advance by 15 minutes. -/
def slotLoop (cur endSlot : Nat) (hols : List Holiday) : List Nat :=
  if cur < endSlot then
    if hols.any (inHolidayWindow cur) then slotLoop (cur + 15) endSlot hols
    else cur :: slotLoop (cur + 15) endSlot hols
  else []
termination_by endSlot - cur
decreasing_by all_goals omega

/-- The per-row body of `hours.forEach(slot => ...)` in the handler. -/
def entrySlots (slot : HourSlot) (isToday : Bool)
    (nowTime leadTimeMinutes bufferMinutes : Nat) (hols : List Holiday) : List Nat :=
  if slot.is_closed then []
  else
    slotLoop (bumpStart slot.open_time isToday nowTime leadTimeMinutes)
      (adjClose slot.close_time bufferMinutes) hols

/-- The `GET /api/store/collection-times` handler from `src/index.js`.
`leadTimeMinutes`/`bufferMinutes` are the values the handler derives from
store config (`collection_lead_time_minutes || 15`, etc.); `isToday` is
the handler's `targetDate === ukTime.toISOString().split('T')[0]` test
and `nowTime` the UK wall-clock time.  The rows arrive ordered by
`open_time`; the list is taken in that order. -/
def collectionTimes (hours : List HourSlot) (holidays : List Holiday)
    (targetDate targetDay : Nat) (isToday : Bool)
    (nowTime leadTimeMinutes bufferMinutes : Nat) : TimesResult :=
  let dayHours := hours.filter (fun s => s.day_of_week == targetDay)
  if dayHours.isEmpty then ⟨[], some "Closed on this day"⟩
  else
    let hols := holidays.filter (fun h => h.holiday_date == targetDate)
    ⟨dayHours.foldl
        (fun acc slot =>
          acc ++ entrySlots slot isToday nowTime leadTimeMinutes bufferMinutes hols)
        [],
      none⟩

/-! ## Lemmas about the normalizer -/

theorem alnum_toUpper_fixed (c : Char) (h : isAlnumCh c = true) :
    jsToUpper c = c := by
  unfold isAlnumCh isUpperAlpha isDigitCh at h
  unfold jsToUpper
  rw [if_neg]
  simp only [Bool.or_eq_true, Bool.and_eq_true, decide_eq_true_eq] at h
  omega

theorem mem_sanitize {c : Char} {l : List Char} (h : c ∈ sanitize l) :
    isAlnumCh c = true :=
  List.of_mem_filter h

theorem sanitize_fixed : ∀ l : List Char,
    (∀ c ∈ l, isAlnumCh c = true) → sanitize l = l := by
  intro l h
  induction l with
  | nil => rfl
  | cons c l ih =>
    have hc : isAlnumCh c = true := h c (List.mem_cons_self _ _)
    have hrest := ih fun x hx => h x (List.mem_cons_of_mem _ hx)
    unfold sanitize at hrest ⊢
    simp only [List.map_cons, alnum_toUpper_fixed c hc, List.filter_cons, hc, if_true,
      hrest]

theorem sanitize_append (a b : List Char) :
    sanitize (a ++ b) = sanitize a ++ sanitize b := by
  unfold sanitize
  rw [List.map_append, List.filter_append]

theorem normalize_short {l : List Char} (h : (sanitize l).length < 5) :
    normalizeUkPostcode l = sanitize l := by
  unfold normalizeUkPostcode
  rw [if_pos h]

theorem normalize_long {l : List Char} (h : ¬ (sanitize l).length < 5) :
    normalizeUkPostcode l =
      (sanitize l).take ((sanitize l).length - 3) ++
        ' ' :: (sanitize l).drop ((sanitize l).length - 3) := by
  unfold normalizeUkPostcode
  rw [if_neg h]

theorem sanitize_normalize (x : List Char) :
    sanitize (normalizeUkPostcode x) = sanitize x := by
  have hfix : sanitize (sanitize x) = sanitize x :=
    sanitize_fixed _ fun c hc => mem_sanitize hc
  by_cases h5 : (sanitize x).length < 5
  · rw [normalize_short h5, hfix]
  · rw [normalize_long h5, sanitize_append]
    have htake : sanitize ((sanitize x).take ((sanitize x).length - 3)) =
        (sanitize x).take ((sanitize x).length - 3) :=
      sanitize_fixed _ fun c hc => mem_sanitize (List.mem_of_mem_take hc)
    have hsp : jsToUpper ' ' = ' ' := by decide
    have hspAl : isAlnumCh ' ' = false := by decide
    have hdropPart : sanitize (' ' :: (sanitize x).drop ((sanitize x).length - 3)) =
        sanitize ((sanitize x).drop ((sanitize x).length - 3)) := by
      unfold sanitize
      simp only [List.map_cons, hsp, List.filter_cons, hspAl, Bool.false_eq_true,
        if_false]
    have hdrop : sanitize ((sanitize x).drop ((sanitize x).length - 3)) =
        (sanitize x).drop ((sanitize x).length - 3) :=
      sanitize_fixed _ fun c hc => mem_sanitize (List.mem_of_mem_drop hc)
    rw [htake, hdropPart, hdrop, List.take_append_drop]

/-- C9: `normalize` is idempotent on every input (in particular on those
whose stripped alphanumeric form has at least 5 characters). -/
theorem normalizeUkPostcode_idem (x : List Char) :
    normalizeUkPostcode (normalizeUkPostcode x) = normalizeUkPostcode x := by
  have hfix : sanitize (sanitize x) = sanitize x :=
    sanitize_fixed _ fun c hc => mem_sanitize hc
  by_cases h5 : (sanitize x).length < 5
  · rw [normalize_short h5, normalize_short (by rw [hfix]; exact h5), hfix]
  · rw [normalize_long h5]
    have hT : sanitize
        ((sanitize x).take ((sanitize x).length - 3) ++
          ' ' :: (sanitize x).drop ((sanitize x).length - 3)) = sanitize x := by
      rw [← normalize_long h5, sanitize_normalize]
    rw [normalize_long (by rw [hT]; exact h5), hT]

/-! ## Lemmas about the zone sort and first-match search -/

theorem mem_insertByLen {x y : Area} :
    ∀ {l : List Area}, y ∈ insertByLen x l ↔ y = x ∨ y ∈ l := by
  intro l
  induction l with
  | nil => simp [insertByLen]
  | cons a l ih =>
    unfold insertByLen
    by_cases h : a.pattern.length ≤ x.pattern.length
    · rw [if_pos h]
      simp [List.mem_cons]
    · rw [if_neg h]
      simp only [List.mem_cons, ih]
      tauto

theorem mem_sortByLenDesc {y : Area} :
    ∀ {l : List Area}, y ∈ sortByLenDesc l ↔ y ∈ l := by
  intro l
  induction l with
  | nil => simp [sortByLenDesc]
  | cons a l ih =>
    unfold sortByLenDesc
    rw [mem_insertByLen]
    simp [List.mem_cons, ih]

theorem pairwise_insertByLen {x : Area} :
    ∀ {l : List Area},
      l.Pairwise (fun a b => b.pattern.length ≤ a.pattern.length) →
      (insertByLen x l).Pairwise (fun a b => b.pattern.length ≤ a.pattern.length) := by
  intro l
  induction l with
  | nil => intro _; simp [insertByLen]
  | cons a l ih =>
    intro hpw
    rw [List.pairwise_cons] at hpw
    unfold insertByLen
    by_cases h : a.pattern.length ≤ x.pattern.length
    · rw [if_pos h, List.pairwise_cons]
      refine ⟨?_, List.pairwise_cons.mpr hpw⟩
      intro b hb
      rcases List.mem_cons.mp hb with rfl | hb'
      · omega
      · have := hpw.1 b hb'
        omega
    · rw [if_neg h, List.pairwise_cons]
      refine ⟨?_, ih hpw.2⟩
      intro b hb
      rcases mem_insertByLen.mp hb with rfl | hb'
      · omega
      · exact hpw.1 b hb'

theorem pairwise_sortByLenDesc :
    ∀ l : List Area,
      (sortByLenDesc l).Pairwise (fun a b => b.pattern.length ≤ a.pattern.length) := by
  intro l
  induction l with
  | nil => simp [sortByLenDesc]
  | cons a l ih => exact pairwise_insertByLen ih

theorem find?_isSome_of_mem {α : Type} {p : α → Bool} :
    ∀ {l : List α} {z : α}, z ∈ l → p z = true → ∃ m, l.find? p = some m := by
  intro l
  induction l with
  | nil => simp
  | cons a l ih =>
    intro z hz hp
    by_cases ha : p a = true
    · exact ⟨a, List.find?_cons_of_pos _ ha⟩
    · rcases List.mem_cons.mp hz with rfl | hz'
      · exact absurd hp ha
      · obtain ⟨m, hm⟩ := ih hz' hp
        refine ⟨m, ?_⟩
        rw [List.find?_cons_of_neg _ (by simpa using ha), hm]

theorem find?_eq_some_split {α : Type} {p : α → Bool} :
    ∀ {l : List α} {m : α}, l.find? p = some m →
      ∃ l₁ l₂, l = l₁ ++ m :: l₂ ∧ ∀ x ∈ l₁, p x = false := by
  intro l
  induction l with
  | nil => intro m h; simp at h
  | cons a l ih =>
    intro m hfind
    by_cases ha : p a = true
    · rw [List.find?_cons_of_pos _ ha] at hfind
      cases hfind
      exact ⟨[], l, rfl, by simp⟩
    · rw [List.find?_cons_of_neg _ (by simpa using ha)] at hfind
      obtain ⟨l₁, l₂, rfl, hl₁⟩ := ih hfind
      refine ⟨a :: l₁, l₂, rfl, ?_⟩
      intro x hx
      rcases List.mem_cons.mp hx with rfl | hx'
      · exact eq_false_of_ne_true ha
      · exact hl₁ x hx'

theorem find?_max_len {p : Area → Bool} :
    ∀ {l : List Area} {m : Area},
      l.Pairwise (fun a b => b.pattern.length ≤ a.pattern.length) →
      l.find? p = some m →
      p m = true ∧ m ∈ l ∧
        ∀ z ∈ l, p z = true → z.pattern.length ≤ m.pattern.length := by
  intro l
  induction l with
  | nil => intro m _ h; simp at h
  | cons a l ih =>
    intro m hpw hfind
    rw [List.pairwise_cons] at hpw
    by_cases ha : p a = true
    · rw [List.find?_cons_of_pos _ ha] at hfind
      cases hfind
      refine ⟨ha, List.mem_cons_self _ _, ?_⟩
      intro z hz _
      rcases List.mem_cons.mp hz with rfl | hz'
      · exact le_refl _
      · exact hpw.1 z hz'
    · rw [List.find?_cons_of_neg _ (by simpa using ha)] at hfind
      obtain ⟨hm, hmem, hmax⟩ := ih hpw.2 hfind
      refine ⟨hm, List.mem_cons_of_mem _ hmem, ?_⟩
      intro z hz hpz
      rcases List.mem_cons.mp hz with rfl | hz'
      · exact absurd hpz ha
      · exact hmax z hz' hpz

/-! ## The postcode-provider claims -/

/-- C6: whenever the normalized input fails the UK postcode format test,
the postcode provider returns the normal non-deliverable outcome
`isDeliverable = false`, `reason = "Invalid postcode"`, `feePence = 0`. -/
theorem quoteByPostcode_invalid (rules : PostcodeRules) (postcode : List Char)
    (subtotalPence : ℚ)
    (h : isValidUkPostcodeFormat (normalizeUkPostcode postcode) = false) :
    quoteByPostcode rules postcode subtotalPence =
      ⟨false, 0, 0, none, some "Invalid postcode"⟩ := by
  unfold quoteByPostcode
  rw [if_pos (by simp [h])]

/-- Witness for C6 at the concrete postcode `"HELLO"`, which normalizes to
`"HE LLO"` and fails the format regexp. -/
theorem quoteByPostcode_invalid_applied :
    quoteByPostcode ⟨[], 0, 0⟩ ['H', 'E', 'L', 'L', 'O'] 0 =
      ⟨false, 0, 0, none, some "Invalid postcode"⟩ :=
  quoteByPostcode_invalid _ _ _ (by decide)

/-- C1: for a valid normalized postcode with at least one matching area
pattern, the quote is deliverable, carries `round(fee*100)` pence of a
matching pattern of maximal length plus the below-threshold surcharge
exactly when `subtotalPence/100 < defaultMinOrderThreshold`,
`minOrderPence = threshold*100` and `zone = matched pattern`; and at the
spec's concrete instance the longest pattern `"WF9 4"` wins with fee 230
pence, not 500. -/
theorem quoteByPostcode_longest_zone_wins :
    (∀ (rules : PostcodeRules) (postcode : List Char) (subtotalPence : ℚ),
      isValidUkPostcodeFormat (normalizeUkPostcode postcode) = true →
      (∃ z ∈ rules.areas,
        (z.pattern.map jsToUpper).isPrefixOf (normalizeUkPostcode postcode) = true) →
      ∃ z ∈ rules.areas,
        (z.pattern.map jsToUpper).isPrefixOf (normalizeUkPostcode postcode) = true ∧
        (∀ z' ∈ rules.areas,
            (z'.pattern.map jsToUpper).isPrefixOf (normalizeUkPostcode postcode) = true →
            z'.pattern.length ≤ z.pattern.length) ∧
        quoteByPostcode rules postcode subtotalPence =
          ⟨true,
            jsRound (z.fee * 100) +
              (if subtotalPence / 100 < rules.default_min_order_threshold then
                jsRound (rules.default_extra_fee_if_below_threshold * 100)
              else 0),
            rules.default_min_order_threshold * 100,
            some (.area z.pattern), none⟩) ∧
    quoteByPostcode
        ⟨[⟨['W', 'F', '9', ' ', '4'], 23 / 10⟩, ⟨['W', 'F', '9'], 5⟩], 0, 0⟩
        ['W', 'F', '9', '4', 'P', 'Y'] 1000 =
      ⟨true, 230, 0, some (.area ['W', 'F', '9', ' ', '4']), none⟩ := by
  constructor
  · intro rules postcode subtotalPence hvalid hex
    obtain ⟨z0, hz0mem, hz0p⟩ := hex
    obtain ⟨m, hfind⟩ :=
      find?_isSome_of_mem
        (p := fun z => (z.pattern.map jsToUpper).isPrefixOf (normalizeUkPostcode postcode))
        (mem_sortByLenDesc.mpr hz0mem) hz0p
    obtain ⟨hpm, hmmem, hmax⟩ :=
      find?_max_len
        (p := fun z => (z.pattern.map jsToUpper).isPrefixOf (normalizeUkPostcode postcode))
        (pairwise_sortByLenDesc rules.areas) hfind
    refine ⟨m, mem_sortByLenDesc.mp hmmem, hpm,
      fun z' hz' hp' => hmax z' (mem_sortByLenDesc.mpr hz') hp', ?_⟩
    simp only [quoteByPostcode]
    rw [if_neg (by simp [hvalid]), hfind]
    by_cases hc : subtotalPence / 100 < rules.default_min_order_threshold
    · simp [hc]
    · simp [hc]
  · simp +decide [quoteByPostcode, sortByLenDesc, insertByLen, jsRound]
    norm_num

/-- Witness for C1 at the spec's concrete instance: areas
`[{"WF9 4", 2.30}, {"WF9", 5.00}]`, postcode `"WF94PY"`, subtotal 1000
pence, threshold and surcharge 0. -/
theorem quoteByPostcode_longest_zone_wins_applied :
    ∃ z ∈ [(⟨['W', 'F', '9', ' ', '4'], 23 / 10⟩ : Area), ⟨['W', 'F', '9'], 5⟩],
      (z.pattern.map jsToUpper).isPrefixOf
          (normalizeUkPostcode ['W', 'F', '9', '4', 'P', 'Y']) = true ∧
      (∀ z' ∈ [(⟨['W', 'F', '9', ' ', '4'], 23 / 10⟩ : Area), ⟨['W', 'F', '9'], 5⟩],
          (z'.pattern.map jsToUpper).isPrefixOf
              (normalizeUkPostcode ['W', 'F', '9', '4', 'P', 'Y']) = true →
          z'.pattern.length ≤ z.pattern.length) ∧
      quoteByPostcode
          ⟨[⟨['W', 'F', '9', ' ', '4'], 23 / 10⟩, ⟨['W', 'F', '9'], 5⟩], 0, 0⟩
          ['W', 'F', '9', '4', 'P', 'Y'] 1000 =
        ⟨true,
          jsRound (z.fee * 100) +
            (if (1000 : ℚ) / 100 < (0 : ℚ) then jsRound ((0 : ℚ) * 100) else 0),
          (0 : ℚ) * 100, some (.area z.pattern), none⟩ := by
  exact quoteByPostcode_longest_zone_wins.1
    ⟨[⟨['W', 'F', '9', ' ', '4'], 23 / 10⟩, ⟨['W', 'F', '9'], 5⟩], 0, 0⟩
    ['W', 'F', '9', '4', 'P', 'Y'] 1000 (by decide)
    ⟨⟨['W', 'F', '9', ' ', '4'], 23 / 10⟩, List.mem_cons_self _ _, by decide⟩

/-! ## The distance-provider claims -/

/-- C3 counterexample: with bands `[{max_distance 10, gte-fee 2, lt-fee 3}]`
but `no_service_beyond = 5`, a successfully geocoded and routed request at
distance 7 lies within the band, yet the provider returns a non-deliverable
quote with fee 0 — not `round(2*100) = 200` as the claim asserts for every
configuration. -/
theorem quoteByDistance_band_beyond_refuted :
    (7 : ℚ) ≤ 10 ∧
    quoteByDistance ⟨[⟨10, 2, 3⟩], 5⟩ (.ok (some ⟨0, 0⟩)) (.ok (some 7)) 0 =
      ⟨false, 0, 0, none, some "Out of delivery range"⟩ ∧
    jsRound ((2 : ℚ) * 100) = 200 := by
  refine ⟨by norm_num, ?_, by norm_num [jsRound]⟩
  simp only [quoteByDistance]
  rw [if_pos (by norm_num)]

/-- C3 (amended): when the subtotal is nonnegative, the address geocodes
and routes successfully, the distance lies within some band AND does not
exceed `no_service_beyond`, the provider charges `round(fee_if_subtotal_gte
* 100)` pence of the first band containing the distance (every band listed
before it does not contain the distance) — the `fee_if_subtotal_lt` value
never influences the result — with `minOrderPence = 0`. -/
theorem quoteByDistance_gte_fee (rules : DistanceRules) (c : Coord)
    (d subtotalPence : ℚ) (hsub : 0 ≤ subtotalPence)
    (hrange : ¬ rules.no_service_beyond < d)
    (hband : ∃ b ∈ rules.bands, d ≤ b.max_distance) :
    ∃ b ∈ rules.bands, d ≤ b.max_distance ∧
      (∃ l₁ l₂, rules.bands = l₁ ++ b :: l₂ ∧
        ∀ x ∈ l₁, ¬ d ≤ x.max_distance) ∧
      quoteByDistance rules (.ok (some c)) (.ok (some d)) subtotalPence =
        ⟨true, jsRound (b.fee_if_subtotal_gte * 100), 0,
          some (.band b.max_distance), none⟩ := by
  obtain ⟨b0, hb0, hb0d⟩ := hband
  obtain ⟨m, hfind⟩ :=
    find?_isSome_of_mem (p := fun b => decide (d ≤ b.max_distance)) hb0
      (decide_eq_true hb0d)
  have hpm : d ≤ m.max_distance := by
    have := List.find?_some hfind
    simpa using this
  have hmem : m ∈ rules.bands := List.mem_of_find?_eq_some hfind
  obtain ⟨l₁, l₂, hdecomp, hl₁⟩ := find?_eq_some_split hfind
  refine ⟨m, hmem, hpm, ⟨l₁, l₂, hdecomp, ?_⟩, ?_⟩
  · intro x hx
    have := hl₁ x hx
    simpa using this
  · simp only [quoteByDistance]
    rw [if_neg hrange, hfind]
    have hpos : (0 : ℚ) ≤ subtotalPence / 100 := by positivity
    simp only [hpos, if_true, if_pos hpos]

/-- Witness for the amended C3 at distance 2 with two bands of bounds 5 and
9 (gte-fees 3 and 6): both contain the distance, the first one (bound 5,
fee `round(3*100)`) is charged; range cutoff 10, subtotal 0. -/
theorem quoteByDistance_gte_fee_applied :
    ∃ b ∈ [(⟨5, 3, 4⟩ : Band), ⟨9, 6, 7⟩], (2 : ℚ) ≤ b.max_distance ∧
      (∃ l₁ l₂, [(⟨5, 3, 4⟩ : Band), ⟨9, 6, 7⟩] = l₁ ++ b :: l₂ ∧
        ∀ x ∈ l₁, ¬ (2 : ℚ) ≤ x.max_distance) ∧
      quoteByDistance ⟨[⟨5, 3, 4⟩, ⟨9, 6, 7⟩], 10⟩ (.ok (some ⟨0, 0⟩))
          (.ok (some 2)) 0 =
        ⟨true, jsRound (b.fee_if_subtotal_gte * 100), 0,
          some (.band b.max_distance), none⟩ := by
  exact quoteByDistance_gte_fee ⟨[⟨5, 3, 4⟩, ⟨9, 6, 7⟩], 10⟩ ⟨0, 0⟩ 2 0
    (by norm_num) (by norm_num)
    ⟨⟨5, 3, 4⟩, List.mem_cons_self _ _, by norm_num⟩

/-! ## The orchestrator claim -/

/-- C5: for every request whose mode is not `collection`, the orchestrator
returns a well-formed decision in every failure scenario: a rejected
config lookup is absorbed into `reason = "Error calculating delivery
fee"`, a completed lookup without a config row yields `reason = "Store
configuration not found"`, an unrecognized `activeRuleType` yields
`reason = "Invalid delivery rule type"`, and an exception inside the
distance path is absorbed into `reason = "Error calculating delivery
fee"`. -/
theorem quoteDelivery_total (mode : String) (postcode : List Char)
    (subtotalPence : ℚ) (configLookup : Except String (Option StoreConfig))
    (geocodeResult : Except String (Option Coord))
    (distanceResult : Except String (Option ℚ))
    (hmode : mode ≠ "collection") :
    (∀ e, configLookup = .error e →
      quoteDelivery mode postcode subtotalPence configLookup geocodeResult
          distanceResult =
        ⟨false, 0, 0, none, some "Error calculating delivery fee"⟩) ∧
    (configLookup = .ok none →
      quoteDelivery mode postcode subtotalPence configLookup geocodeResult
          distanceResult =
        ⟨false, 0, 0, none, some "Store configuration not found"⟩) ∧
    (∀ cfg, configLookup = .ok (some cfg) →
      cfg.delivery_active_rule_type ≠ "postcode" →
      cfg.delivery_active_rule_type ≠ "distance" →
      quoteDelivery mode postcode subtotalPence configLookup geocodeResult
          distanceResult =
        ⟨false, 0, 0, none, some "Invalid delivery rule type"⟩) ∧
    (∀ cfg e, configLookup = .ok (some cfg) →
      cfg.delivery_active_rule_type = "distance" →
      geocodeResult = .error e →
      quoteDelivery mode postcode subtotalPence configLookup geocodeResult
          distanceResult =
        ⟨false, 0, 0, none, some "Error calculating delivery fee"⟩) := by
  refine ⟨?_, ?_, ?_, ?_⟩
  · intro e he
    subst he
    simp [quoteDelivery, hmode]
  · intro hc
    subst hc
    simp [quoteDelivery, hmode]
  · intro cfg hc h1 h2
    subst hc
    simp [quoteDelivery, hmode, h1, h2]
  · intro cfg e hc h1 h2
    subst hc
    subst h2
    simp [quoteDelivery, hmode, h1, quoteByDistance]

/-- Witness for C5: a non-collection request whose config lookup raised. -/
theorem quoteDelivery_total_applied :
    quoteDelivery "delivery" [] 0 (.error "boom") (.ok none) (.ok none) =
      ⟨false, 0, 0, none, some "Error calculating delivery fee"⟩ :=
  (quoteDelivery_total "delivery" [] 0 (.error "boom") (.ok none) (.ok none)
    (by decide)).1 "boom" rfl

/-! ## Lemmas about the slot-generation loop -/

theorem slotLoop_eq (cur endSlot : Nat) (hols : List Holiday) :
    slotLoop cur endSlot hols =
      if cur < endSlot then
        if hols.any (inHolidayWindow cur) then slotLoop (cur + 15) endSlot hols
        else cur :: slotLoop (cur + 15) endSlot hols
      else [] := by
  rw [slotLoop]

theorem mem_slotLoop (t : Nat) (hols : List Holiday) (cur endSlot : Nat) :
    t ∈ slotLoop cur endSlot hols ↔
      cur ≤ t ∧ t < endSlot ∧ (t - cur) % 15 = 0 ∧
        hols.any (inHolidayWindow t) = false := by
  rw [slotLoop_eq]
  by_cases h : cur < endSlot
  · rw [if_pos h]
    have ih := mem_slotLoop t hols (cur + 15) endSlot
    by_cases hhit : hols.any (inHolidayWindow cur) = true
    · rw [if_pos hhit, ih]
      constructor
      · rintro ⟨h1, h2, h3, h4⟩
        exact ⟨by omega, h2, by omega, h4⟩
      · rintro ⟨h1, h2, h3, h4⟩
        have hne : t ≠ cur := by
          rintro rfl
          rw [hhit] at h4
          simp at h4
        exact ⟨by omega, h2, by omega, h4⟩
    · rw [if_neg hhit, List.mem_cons, ih]
      have hfalse : hols.any (inHolidayWindow cur) = false :=
        Bool.not_eq_true _ ▸ eq_false_of_ne_true hhit
      constructor
      · rintro (rfl | ⟨h1, h2, h3, h4⟩)
        · exact ⟨le_refl _, h, by omega, hfalse⟩
        · exact ⟨by omega, h2, by omega, h4⟩
      · rintro ⟨h1, h2, h3, h4⟩
        by_cases ht : t = cur
        · exact Or.inl ht
        · exact Or.inr ⟨by omega, h2, by omega, h4⟩
  · rw [if_neg h]
    simp only [List.not_mem_nil, false_iff]
    rintro ⟨h1, h2, _, _⟩
    omega
termination_by endSlot - cur
decreasing_by omega

theorem foldl_append_eq (f : HourSlot → List Nat) :
    ∀ (l : List HourSlot) (init : List Nat),
      l.foldl (fun acc s => acc ++ f s) init = init ++ (l.map f).flatten := by
  intro l
  induction l with
  | nil => intro init; simp
  | cons s l ih =>
    intro init
    simp only [List.foldl_cons, ih, List.map_cons, List.flatten_cons,
      List.append_assoc]

theorem mem_availableTimes (hours : List HourSlot) (holidays : List Holiday)
    (targetDate targetDay : Nat) (isToday : Bool) (nowTime lead buf t : Nat) :
    t ∈ (collectionTimes hours holidays targetDate targetDay isToday nowTime
          lead buf).availableTimes ↔
      ∃ slot ∈ hours.filter (fun s => s.day_of_week == targetDay),
        t ∈ entrySlots slot isToday nowTime lead buf
              (holidays.filter (fun h => h.holiday_date == targetDate)) := by
  simp only [collectionTimes]
  by_cases hempty : (hours.filter (fun s => s.day_of_week == targetDay)).isEmpty
  · rw [if_pos hempty]
    rw [List.isEmpty_iff] at hempty
    simp [hempty]
  · rw [if_neg hempty]
    simp only [foldl_append_eq, List.nil_append, List.mem_flatten, List.mem_map]
    constructor
    · rintro ⟨l, ⟨slot, hs, rfl⟩, ht⟩
      exact ⟨slot, hs, ht⟩
    · rintro ⟨slot, hs, ht⟩
      exact ⟨_, ⟨slot, hs, rfl⟩, ht⟩

theorem mem_entrySlots (slot : HourSlot) (isToday : Bool)
    (nowTime lead buf t : Nat) (hols : List Holiday) :
    t ∈ entrySlots slot isToday nowTime lead buf hols ↔
      slot.is_closed = false ∧
        bumpStart slot.open_time isToday nowTime lead ≤ t ∧
        t < adjClose slot.close_time buf ∧
        (t - bumpStart slot.open_time isToday nowTime lead) % 15 = 0 ∧
        hols.any (inHolidayWindow t) = false := by
  unfold entrySlots
  by_cases hc : slot.is_closed
  · rw [if_pos hc]
    simp [hc]
  · rw [if_neg hc]
    rw [mem_slotLoop]
    have : slot.is_closed = false := eq_false_of_ne_true hc
    simp [this]

/-! ## The availability claims -/

/-- C7: for a single non-closed opening-hours row that crosses midnight
(`closeTime < openTime`) and no holiday on the current date, the store is
open at time `t` iff `t ≥ openTime` or `t ≤ closeTime`. -/
theorem isOpenNow_overnight (holidays : List Holiday) (slot : HourSlot)
    (currentDate currentTime : Nat)
    (hnohol : holidays.filter (fun h => h.holiday_date == currentDate) = [])
    (hopen : slot.is_closed = false)
    (hover : slot.close_time < slot.open_time) :
    (isOpenNow holidays [slot] currentDate slot.day_of_week currentTime).isOpen
        = true ↔
      slot.open_time ≤ currentTime ∨ currentTime ≤ slot.close_time := by
  unfold isOpenNow
  rw [hnohol]
  simp [hopen, hover]

/-- Witness for C7 at the spec's instance: hours
`{dayOfWeek 5, open 16:00, close 00:00}`, now 23:30 on day 5 → open. -/
theorem isOpenNow_overnight_applied :
    (isOpenNow [] [⟨5, 960, 0, false⟩] 0 5 1410).isOpen = true := by
  exact (isOpenNow_overnight [] ⟨5, 960, 0, false⟩ 0 1410 rfl rfl
    (by decide)).mpr (Or.inl (by decide))

/-- C2 counterexample: with two holiday entries for the current date,
`10:00–11:00` and `14:00–15:00`, at `14:30` the current time lies inside
the second entry's window (so the claim demands "closed"), yet the handler
consults only `holidays[0]` and reports the store open. -/
theorem isOpenNow_union_refuted :
    (840 ≤ 870 ∧ 870 ≤ 900) ∧
    isOpenNow [⟨1, 600, 660⟩, ⟨1, 840, 900⟩] [] 1 3 870 =
      ⟨true, "Open during holiday period"⟩ := by
  exact ⟨by decide, by decide⟩

/-- C2 (amended): when at least one holiday entry matches the current
date, the handler consults only the first matching entry: the store is
reported closed iff the current time lies in that first entry's window,
and the result is entirely independent of the opening-hours table (outside
the window it reports open without consulting normal hours). -/
theorem isOpenNow_first_holiday (holidays : List Holiday)
    (hours hours2 : List HourSlot) (currentDate d1 d2 currentTime : Nat)
    (hol : Holiday) (rest : List Holiday)
    (hfilter : holidays.filter (fun h => h.holiday_date == currentDate) =
      hol :: rest) :
    ((isOpenNow holidays hours currentDate d1 currentTime).isOpen = false ↔
      hol.start_time ≤ currentTime ∧ currentTime ≤ hol.end_time) ∧
    isOpenNow holidays hours currentDate d1 currentTime =
      isOpenNow holidays hours2 currentDate d2 currentTime := by
  unfold isOpenNow
  rw [hfilter]
  constructor
  · simp [inHolidayWindow]
  · rfl

/-- Witness for the amended C2: one holiday `01:00–02:00` on the current
date, now inside the window; the hours table is irrelevant. -/
theorem isOpenNow_first_holiday_applied :
    ((isOpenNow [⟨2, 60, 120⟩] [] 2 0 90).isOpen = false ↔
      60 ≤ 90 ∧ 90 ≤ 120) ∧
    isOpenNow [⟨2, 60, 120⟩] [] 2 0 90 =
      isOpenNow [⟨2, 60, 120⟩] [⟨0, 0, 100, false⟩] 2 5 90 := by
  exact isOpenNow_first_holiday [⟨2, 60, 120⟩] [] [⟨0, 0, 100, false⟩] 2 0 5 90
    ⟨2, 60, 120⟩ [] (by decide)

/-- C8 counterexample: a weekday whose only opening-hours row is marked
closed: the handler returns the empty list but with no reason at all — not
the claimed `"Closed on this day"`, which it reserves for weekdays with no
rows whatsoever. -/
theorem collectionTimes_closed_reason_refuted :
    (∀ s ∈ [(⟨1, 720, 900, true⟩ : HourSlot)], s.is_closed = true) ∧
    collectionTimes [⟨1, 720, 900, true⟩] [] 0 1 false 0 0 0 = ⟨[], none⟩ ∧
    (none : Option String) ≠ some "Closed on this day" := by
  refine ⟨by decide, ?_, by decide⟩
  simp [collectionTimes, entrySlots]

/-- C8 (amended): the reason `"Closed on this day"` accompanies the empty
sequence exactly when the weekday has no opening-hours rows at all; when
rows exist but every one is marked closed, the handler still returns the
empty sequence but with no reason. -/
theorem collectionTimes_closed_day (hours : List HourSlot)
    (holidays : List Holiday) (targetDate targetDay : Nat) (isToday : Bool)
    (nowTime lead buf : Nat) :
    (hours.filter (fun s => s.day_of_week == targetDay) = [] →
      collectionTimes hours holidays targetDate targetDay isToday nowTime
          lead buf =
        ⟨[], some "Closed on this day"⟩) ∧
    (hours.filter (fun s => s.day_of_week == targetDay) ≠ [] →
      (∀ s ∈ hours.filter (fun s => s.day_of_week == targetDay),
        s.is_closed = true) →
      collectionTimes hours holidays targetDate targetDay isToday nowTime
          lead buf =
        ⟨[], none⟩) := by
  constructor
  · intro hnil
    simp only [collectionTimes]
    rw [if_pos (by rw [List.isEmpty_iff]; exact hnil)]
  · intro hne hclosed
    simp only [collectionTimes]
    rw [if_neg (by rw [List.isEmpty_iff]; exact hne)]
    rw [foldl_append_eq, List.nil_append]
    have : ∀ l ∈ (hours.filter (fun s => s.day_of_week == targetDay)).map
        (fun slot => entrySlots slot isToday nowTime lead buf
          (holidays.filter (fun h => h.holiday_date == targetDate))),
        l = [] := by
      intro l hl
      obtain ⟨slot, hs, rfl⟩ := List.mem_map.mp hl
      unfold entrySlots
      rw [if_pos (hclosed slot hs)]
    rw [List.flatten_eq_nil_iff.mpr this]

/-- Witness for the amended C8: both branches at concrete inputs — a
weekday with no rows, and a weekday whose two rows are both closed. -/
theorem collectionTimes_closed_day_applied :
    collectionTimes [⟨3, 700, 800, false⟩] [] 0 2 false 0 0 0 =
      ⟨[], some "Closed on this day"⟩ ∧
    collectionTimes [⟨2, 600, 660, true⟩, ⟨2, 700, 800, true⟩] [] 0 2 false
        0 0 0 =
      ⟨[], none⟩ := by
  exact ⟨(collectionTimes_closed_day [⟨3, 700, 800, false⟩] [] 0 2 false 0 0
      0).1 (by decide),
    (collectionTimes_closed_day [⟨2, 600, 660, true⟩, ⟨2, 700, 800, true⟩] []
      0 2 false 0 0 0).2 (by decide) (by decide)⟩

/-- C4 counterexample: hours 12:00–15:00, lead 0, buffer 0, requested for
today with now = 12:07: the handler bumps the start to 12:07 and emits
12:07 as its first slot — a time that is not a 15-minute boundary, so the
emitted sequence is not the set of 15-minute boundaries the claim
describes. -/
theorem collectionTimes_grid_refuted :
    727 ∈ (collectionTimes [⟨1, 720, 900, false⟩] [] 0 1 true 727 0
        0).availableTimes ∧
    ¬ (727 % 15 = 0) := by
  constructor
  · rw [mem_availableTimes]
    refine ⟨⟨1, 720, 900, false⟩, by decide, ?_⟩
    rw [mem_entrySlots]
    exact ⟨rfl, by decide, by decide, by decide, by decide⟩
  · decide

/-- C4 (amended): for a single non-closed entry the available times are
exactly the times `start + 15·k` (k ≥ 0) that are strictly below
`closeTime − bufferMinutes` and avoid every holiday window of the date,
where `start` is `openTime` bumped to `now + leadTimeMinutes` when the
request is for today; these coincide with the 15-minute boundaries
whenever `start` is itself a multiple of 15 (as in the 12:00–15:00
example, whose first slot is 12:00 and last 14:45). -/
theorem collectionTimes_grid (slot : HourSlot) (holidays : List Holiday)
    (targetDate : Nat) (isToday : Bool) (nowTime lead buf t : Nat)
    (hnc : slot.is_closed = false) :
    t ∈ (collectionTimes [slot] holidays targetDate slot.day_of_week isToday
          nowTime lead buf).availableTimes ↔
      bumpStart slot.open_time isToday nowTime lead ≤ t ∧
      t < adjClose slot.close_time buf ∧
      (t - bumpStart slot.open_time isToday nowTime lead) % 15 = 0 ∧
      (holidays.filter (fun h => h.holiday_date == targetDate)).any
          (inHolidayWindow t) = false := by
  rw [mem_availableTimes]
  constructor
  · rintro ⟨s, hs, hent⟩
    rw [List.mem_filter, List.mem_singleton] at hs
    obtain ⟨rfl, -⟩ := hs
    exact ((mem_entrySlots _ _ _ _ _ _ _).mp hent).2
  · intro hrhs
    refine ⟨slot, List.mem_filter.mpr ⟨List.mem_singleton_self _, by simp⟩, ?_⟩
    exact (mem_entrySlots _ _ _ _ _ _ _).mpr ⟨hnc, hrhs.1, hrhs.2.1, hrhs.2.2.1,
      hrhs.2.2.2⟩

/-- Witness for the amended C4 at the spec's example: hours 12:00–15:00,
lead 0, buffer 0, today with now = 12:00 — 12:00 and 14:45 are available,
15:00 is not. -/
theorem collectionTimes_grid_applied :
    720 ∈ (collectionTimes [⟨1, 720, 900, false⟩] [] 0 1 true 720 0
        0).availableTimes ∧
    885 ∈ (collectionTimes [⟨1, 720, 900, false⟩] [] 0 1 true 720 0
        0).availableTimes ∧
    900 ∉ (collectionTimes [⟨1, 720, 900, false⟩] [] 0 1 true 720 0
        0).availableTimes := by
  refine ⟨?_, ?_, ?_⟩
  · exact (collectionTimes_grid ⟨1, 720, 900, false⟩ [] 0 true 720 0 0 720
      rfl).mpr ⟨by decide, by decide, by decide, by decide⟩
  · exact (collectionTimes_grid ⟨1, 720, 900, false⟩ [] 0 true 720 0 0 885
      rfl).mpr ⟨by decide, by decide, by decide, by decide⟩
  · intro h
    have := ((collectionTimes_grid ⟨1, 720, 900, false⟩ [] 0 true 720 0 0 900
      rfl).mp h).2.1
    revert this
    decide

/-- C10 counterexample: holidays `10:00–11:00` and `14:00–15:00` on a
date; at `14:00` — the exact start boundary of the second entry — the slot
is excluded from the collection times, yet `is-open` (which looks only at
`holidays[0]`) reports the store open rather than closed. -/
theorem holiday_boundary_refuted :
    840 ∉ (collectionTimes [⟨2, 780, 960, false⟩] [⟨1, 600, 660⟩, ⟨1, 840, 900⟩]
        1 2 false 0 0 0).availableTimes ∧
    (isOpenNow [⟨1, 600, 660⟩, ⟨1, 840, 900⟩] [] 1 2 840).isOpen = true := by
  constructor
  · intro h
    rw [mem_availableTimes] at h
    obtain ⟨slot, hs, hent⟩ := h
    rw [mem_entrySlots] at hent
    exact absurd hent.2.2.2.2 (by decide)
  · decide

/-- C10 (amended): holiday windows are inclusive at both endpoints — a
candidate slot equal to a window's `startTime` or `endTime` is excluded
from the available times for every matching holiday entry (with
`startTime ≤ endTime`), while `is-open`, which consults only the first
matching entry, reports the store closed at exactly the first entry's
boundary instants. -/
theorem holiday_boundaries_inclusive (hours : List HourSlot)
    (holidays : List Holiday) (targetDate targetDay : Nat) (isToday : Bool)
    (nowTime lead buf : Nat) (hol : Holiday) (hmem : hol ∈ holidays)
    (hdate : hol.holiday_date = targetDate)
    (hwf : hol.start_time ≤ hol.end_time) (t : Nat)
    (ht : t = hol.start_time ∨ t = hol.end_time) :
    t ∉ (collectionTimes hours holidays targetDate targetDay isToday nowTime
          lead buf).availableTimes ∧
    (∀ hours2 d rest,
      holidays.filter (fun h => h.holiday_date == targetDate) = hol :: rest →
      (isOpenNow holidays hours2 targetDate d t).isOpen = false) := by
  have hwindow : inHolidayWindow t hol = true := by
    unfold inHolidayWindow
    rcases ht with rfl | rfl <;> simp <;> omega
  constructor
  · intro h
    rw [mem_availableTimes] at h
    obtain ⟨slot, hs, hent⟩ := h
    rw [mem_entrySlots] at hent
    have hfree := hent.2.2.2.2
    have hhol : hol ∈ holidays.filter (fun h => h.holiday_date == targetDate) :=
      List.mem_filter.mpr ⟨hmem, by simp [hdate]⟩
    have : (holidays.filter (fun h => h.holiday_date == targetDate)).any
        (inHolidayWindow t) = true :=
      List.any_eq_true.mpr ⟨hol, hhol, hwindow⟩
    rw [hfree] at this
    exact Bool.false_ne_true this
  · intro hours2 d rest hfilter
    unfold isOpenNow
    rw [hfilter]
    simp [hwindow]

/-- Witness for the amended C10: one holiday `10:00–11:00`; the boundary
instant 10:00 is excluded from collection times and reported closed. -/
theorem holiday_boundaries_inclusive_applied :
    600 ∉ (collectionTimes [⟨2, 540, 720, false⟩] [⟨1, 600, 660⟩] 1 2 false 0
        0 0).availableTimes ∧
    (∀ hours2 d rest,
      List.filter (fun h => h.holiday_date == 1) [(⟨1, 600, 660⟩ : Holiday)] =
        ⟨1, 600, 660⟩ :: rest →
      (isOpenNow [⟨1, 600, 660⟩] hours2 1 d 600).isOpen = false) := by
  exact holiday_boundaries_inclusive [⟨2, 540, 720, false⟩] [⟨1, 600, 660⟩] 1 2
    false 0 0 0 ⟨1, 600, 660⟩ (List.mem_singleton_self _) rfl (by decide) 600
    (Or.inl rfl)

end Site1
